import Mathlib

/-!
Shallow embedding of `src/tools/pdf_export.py` (the markdown-to-PDF
document compositor of the research-agents repository) and proofs about it.

Conventions of the embedding:
* Python `str` values are modelled as `List Char` internally (one entry per
  code point, as Python indexes strings); `String` is used at the flowable
  boundary for readability.
* Python's whitespace set for `str.strip` / `str.rstrip` / `\s` is modelled
  by `isPySpace` (ASCII whitespace; exotic Unicode spaces are out of scope).
* `reportlab` flowables are modelled by the inductive `Flowable`; a
  `Paragraph(text, styles[name])` becomes `Flowable.para text name`,
  `Spacer(1, h*inch)` becomes `Flowable.spacer (100*h)`.
* Recursions that are not structural in the source (string replace, URL
  scanning, the main line loop) use an explicit fuel argument bounded by the
  input length, so every definition is executable and kernel-reducible;
  adequacy lemmas below recover the natural unfolding equations.
-/

namespace PdfExport

/-- Python whitespace class (`str.strip()` with no argument, regex `\s`),
restricted to the ASCII range. -/
def isPySpace (c : Char) : Bool :=
  c = ' ' || c = '\t' || c = '\n' || c = '\r' || c = '\x0b' || c = '\x0c'

/-- Python `str.lstrip()`. -/
def lstripChars (l : List Char) : List Char := l.dropWhile isPySpace

/-- Python `str.rstrip()` (used at `pdf_export.py:612` for code lines). -/
def rstripChars (l : List Char) : List Char :=
  (l.reverse.dropWhile isPySpace).reverse

/-- Python `str.strip()` (`stripped = line.strip()` at `pdf_export.py:577`). -/
def stripChars (l : List Char) : List Char := rstripChars (lstripChars l)

/-- Python `str.rstrip(':')` (`header_text = stripped.rstrip(':')`,
`pdf_export.py:665`). -/
def rstripColonChars (l : List Char) : List Char :=
  (l.reverse.dropWhile (fun c => c = ':')).reverse

/-- Python `data.split(sep)` for a one-character separator: splits at every
occurrence, keeping empty pieces (`n` separators give `n+1` pieces). -/
def splitOnChar (sep : Char) : List Char → List (List Char)
  | [] => [[]]
  | c :: cs =>
    if c = sep then [] :: splitOnChar sep cs
    else
      match splitOnChar sep cs with
      | w :: ws => (c :: w) :: ws
      | [] => [[c]]

/-- Python `'\n'.join(...)` (`code_text = '\n'.join(code_lines)`,
`pdf_export.py:589`). -/
def joinNL : List (List Char) → List Char
  | [] => []
  | [l] => l
  | l :: ls => l ++ '\n' :: joinNL ls

/-- Python `sep.join(words)` for a one-character separator. -/
def joinWith (sep : Char) : List (List Char) → List Char
  | [] => []
  | [w] => w
  | w :: ws => w ++ sep :: joinWith sep ws

/-- Helper for Python `str.split()` with no argument: cut at every
whitespace character (empty pieces still present). -/
def splitWsAux (l : List Char) : List (List Char) :=
  l.foldr
    (fun c acc =>
      if isPySpace c then [] :: acc
      else
        match acc with
        | w :: ws => (c :: w) :: ws
        | [] => [[c]])
    [[]]

/-- Python `str.split()` with no argument: whitespace runs separate words,
empty pieces are dropped (`first_line.split()`, `pdf_export.py:459`). -/
def splitWs (l : List Char) : List (List Char) :=
  (splitWsAux l).filter (fun w => ¬ w.isEmpty)

/-- One bounded pass of Python `str.replace(old, new)`: replace
non-overlapping occurrences left to right, never rescanning the
replacement.  The fuel argument dominates the length of the list. -/
def replaceSubF (pat rep : List Char) : Nat → List Char → List Char
  | _, [] => []
  | 0, l => l
  | fuel + 1, c :: rest =>
    if pat.isPrefixOf (c :: rest) then
      rep ++ replaceSubF pat rep fuel ((c :: rest).drop pat.length)
    else
      c :: replaceSubF pat rep fuel rest

/-- Python `str.replace(old, new)` for a non-empty `old` (for an empty
`old` the source never calls it; we make it the identity). -/
def replaceSub (pat rep l : List Char) : List Char :=
  if pat = [] then l else replaceSubF pat rep l.length l

/-- The subscript table of `_convert_unicode_scripts`
(`pdf_export.py:192-203`), in source order. -/
def subscriptTable : List (Char × List Char) :=
  [('₀', "<sub>0</sub>".data), ('₁', "<sub>1</sub>".data), ('₂', "<sub>2</sub>".data),
   ('₃', "<sub>3</sub>".data), ('₄', "<sub>4</sub>".data), ('₅', "<sub>5</sub>".data),
   ('₆', "<sub>6</sub>".data), ('₇', "<sub>7</sub>".data), ('₈', "<sub>8</sub>".data),
   ('₉', "<sub>9</sub>".data), ('₊', "<sub>+</sub>".data), ('₋', "<sub>-</sub>".data),
   ('₌', "<sub>=</sub>".data), ('₍', "<sub>(</sub>".data), ('₎', "<sub>)</sub>".data),
   ('ₐ', "<sub>a</sub>".data), ('ₑ', "<sub>e</sub>".data), ('ₒ', "<sub>o</sub>".data),
   ('ₓ', "<sub>x</sub>".data), ('ₔ', "<sub>ə</sub>".data), ('ₕ', "<sub>h</sub>".data),
   ('ₖ', "<sub>k</sub>".data), ('ₗ', "<sub>l</sub>".data), ('ₘ', "<sub>m</sub>".data),
   ('ₙ', "<sub>n</sub>".data), ('ₚ', "<sub>p</sub>".data), ('ₛ', "<sub>s</sub>".data),
   ('ₜ', "<sub>t</sub>".data)]

/-- The superscript table of `_convert_unicode_scripts`
(`pdf_export.py:206-213`), in source order. -/
def superscriptTable : List (Char × List Char) :=
  [('⁰', "<super>0</super>".data), ('¹', "<super>1</super>".data), ('²', "<super>2</super>".data),
   ('³', "<super>3</super>".data), ('⁴', "<super>4</super>".data), ('⁵', "<super>5</super>".data),
   ('⁶', "<super>6</super>".data), ('⁷', "<super>7</super>".data), ('⁸', "<super>8</super>".data),
   ('⁹', "<super>9</super>".data), ('⁺', "<super>+</super>".data), ('⁻', "<super>-</super>".data),
   ('⁼', "<super>=</super>".data), ('⁽', "<super>(</super>".data), ('⁾', "<super>)</super>".data),
   ('ⁿ', "<super>n</super>".data), ('ⁱ', "<super>i</super>".data)]

/-- `{**subscripts, **superscripts}` keeps insertion order and the key sets
are disjoint, so iterating the merged dict is iterating both tables in
order (`pdf_export.py:216`). -/
def scriptMappings : List (Char × List Char) := subscriptTable ++ superscriptTable

/-- The replacement loop of `_convert_unicode_scripts`
(`pdf_export.py:216-217`): each mapping key is a single code point, so each
`text.replace(unicode_char, xml_tag)` is `replaceSub [key] tag`. -/
def applyScriptMaps (l : List Char) : List Char :=
  scriptMappings.foldl (fun acc p => replaceSub [p.1] p.2 acc) l

/-- `_convert_unicode_scripts` (`pdf_export.py:185-219`). -/
def convertUnicodeScripts (s : String) : String := ⟨applyScriptMaps s.data⟩

/-- A character the regex class `[^\s\)\]]` accepts
(`url_pattern` at `pdf_export.py:224`). -/
def urlChar (c : Char) : Bool := ¬ isPySpace c && c ≠ ')' && c ≠ ']'

/-- One anchored attempt of the regex `https?://[^\s\)\]]+`: the optional
`s` commits greedily (backtracking to the empty alternative can never make
`://` match afterwards), the character class is greedy.  Returns the match
and the rest of the input. -/
def matchURL (l : List Char) : Option (List Char × List Char) :=
  match l with
  | 'h' :: 't' :: 't' :: 'p' :: rest =>
    let sr : List Char × List Char :=
      match rest with
      | 's' :: r2 => ("https".data, r2)
      | _ => ("http".data, rest)
    match sr.2 with
    | ':' :: '/' :: '/' :: rest3 =>
      let body := rest3.takeWhile urlChar
      if body = [] then none
      else some (sr.1 ++ ':' :: '/' :: '/' :: body, rest3.drop body.length)
    | _ => none
  | _ => none

/-- Fuel-bounded left-to-right scan of `re.findall(url_pattern, text)`:
after a match the scan resumes past it, after a failure it advances one
character. -/
def findURLsF : Nat → List Char → List (List Char)
  | _, [] => []
  | 0, _ => []
  | fuel + 1, c :: rest =>
    match matchURL (c :: rest) with
    | some (u, r) => u :: findURLsF fuel r
    | none => findURLsF fuel rest

/-- `extract_urls` (`pdf_export.py:222-225`): all non-overlapping matches of
`https?://[^\s\)\]]+`, left to right. -/
def extractUrls (l : List Char) : List (List Char) := findURLsF l.length l

/-- The f-string `f'<a href="{url}" color="blue"><u>{url}</u></a>'` built at
`pdf_export.py:698` (and 712, 727, 743, 769). -/
def linkHtml (url : List Char) : List Char :=
  "<a href=\"".data ++ url ++ "\" color=\"blue\"><u>".data ++ url ++ "</u></a>".data

/-- The URL loop shared by the bullet, numbered-list and paragraph branches
(`pdf_export.py:695-701` etc.): iterate over the URLs found once in the
text, replacing every occurrence in the running text and appending the URL
to the references when it is not yet present. -/
def processLinks (text : List Char) (refs : List (List Char)) :
    List Char × List (List Char) :=
  (extractUrls text).foldl
    (fun acc url =>
      (replaceSub url (linkHtml url) acc.1,
       if url ∈ acc.2 then acc.2 else acc.2 ++ [url]))
    (text, refs)

/-- `SectionNumberTracker.__init__` state (`pdf_export.py:420-422`): the
three counters `counters = [0, 0, 0]` and the `toc_entries` list. -/
structure TrackerState where
  c1 : Nat
  c2 : Nat
  c3 : Nat
  tocEntries : List (Int × String × String)
  deriving DecidableEq, Repr

/-- `SectionNumberTracker.get_number` (`pdf_export.py:424-442`): reject
levels outside `[1,3]`, otherwise increment the counter of the level, zero
all deeper counters and render the dot-joined number from the updated
counters. -/
def getNumber (t : TrackerState) (level : Int) : String × TrackerState :=
  if level < 1 ∨ level > 3 then ("", t)
  else if level = 1 then
    let t' := { t with c1 := t.c1 + 1, c2 := 0, c3 := 0 }
    (toString t'.c1, t')
  else if level = 2 then
    let t' := { t with c2 := t.c2 + 1, c3 := 0 }
    (toString t'.c1 ++ "." ++ toString t'.c2, t')
  else
    let t' := { t with c3 := t.c3 + 1 }
    (toString t'.c1 ++ "." ++ toString t'.c2 ++ "." ++ toString t'.c3, t')

/-- `SectionNumberTracker.add_toc_entry` (`pdf_export.py:444-446`).  No call
site exists anywhere in the repository: the scan loop of `save_to_pdf`
never invokes it. -/
def addTocEntry (t : TrackerState) (level : Int) (title key : String) :
    TrackerState :=
  { t with tocEntries := t.tocEntries ++ [(level, title, key)] }

/-- The flowables appended to `story` by `save_to_pdf`.  `para text style`
is `Paragraph(text, styles[style])`, `pre` is
`Preformatted(text, styles['CodeBlock'])`, `spacer h` is
`Spacer(1, (h/100)*inch)`, `table` carries the parsed cell matrix,
`image` the resolved path, `toc` the `TableOfContents()` placeholder. -/
inductive Flowable where
  | para (text : String) (style : String)
  | pre (text : String)
  | spacer (h : Nat)
  | pageBreak
  | table (data : List (List String))
  | image (path : String)
  | toc
  deriving DecidableEq, Repr

/-- The separator-row regex `^\|[\s\-\|]+\|$` (`pdf_export.py:306`): a pipe,
one or more characters from `[\s\-\|]`, a closing pipe. -/
def isSepRow (line : List Char) : Bool :=
  match line with
  | '|' :: rest =>
    decide (2 ≤ rest.length) &&
      rest.dropLast.all (fun c => isPySpace c || c = '-' || c = '|') &&
      rest.getLast? = some '|'
  | _ => false

/-- `[cell.strip() for cell in line.split('|')[1:-1]]`
(`pdf_export.py:311`). -/
def parseCells (line : List Char) : List String :=
  (((splitOnChar '|' line).drop 1).dropLast).map fun w => String.mk (stripChars w)

/-- `_parse_markdown_table` (`pdf_export.py:288-315`) recast on the suffix
of the line list that starts at `start_idx`: consume consecutive
`|`-prefixed (after strip) lines, skipping separator rows, and return the
parsed rows together with the unconsumed lines. -/
def parseTableRows : List (List Char) → List (List String) × List (List Char)
  | [] => ([], [])
  | l :: rest =>
    let line := stripChars l
    if ['|'].isPrefixOf line then
      if isSepRow line then parseTableRows rest
      else
        let res := parseTableRows rest
        (parseCells line :: res.1, res.2)
    else ([], l :: rest)

/-- First part of `splitAtFirst`: the characters strictly before the first
occurrence of `c`, or `none` when `c` does not occur. -/
def splitAtFirst (c : Char) : List Char → Option (List Char × List Char)
  | [] => none
  | x :: xs =>
    if x = c then some ([], xs)
    else (splitAtFirst c xs).map fun p => (x :: p.1, p.2)

/-- `re.match(r'!\[([^\]]*)\]\(([^\)]+)\)', line)` (`pdf_export.py:391-392`):
`![`, an alt text without `]`, `](`, a non-empty path without `)`, `)`;
anything after the closing parenthesis is ignored (`re.match` is not
anchored at the end).  Returns `(alt_text, path)`. -/
def parseImageTag (l : List Char) : Option (List Char × List Char) :=
  match l with
  | '!' :: '[' :: rest =>
    match splitAtFirst ']' rest with
    | none => none
    | some (alt, rest2) =>
      match rest2 with
      | '(' :: rest3 =>
        match splitAtFirst ')' rest3 with
        | none => none
        | some (path, _) => if path = [] then none else some (alt, path)
      | _ => none
  | _ => none

/-- `OUTPUT_DIR = Path(__file__).parent.parent / "output"`
(`pdf_export.py:17`), modelled as a fixed path string. -/
def outputDir : String := "src/output"

/-- Path resolution of `_detect_and_create_image` (`pdf_export.py:401-403`):
`if not Path(img_path).is_absolute(): img_path = OUTPUT_DIR / img_path`
(POSIX: absolute iff the path starts with `/`). -/
def resolvePath (path : List Char) : List Char :=
  if ['/'].isPrefixOf path then path else outputDir.data ++ '/' :: path

/-- `_detect_and_create_image` (`pdf_export.py:386-414`), with the
filesystem abstracted as the list `fs` of existing file paths: a relative
path is resolved against `OUTPUT_DIR`; an existing path yields the image
flowable, a missing one the `[Image not found: ...]` info-box paragraph. -/
def detectAndCreateImage (fs : List String) (line : List Char) :
    Option Flowable :=
  match parseImageTag (stripChars line) with
  | none => none
  | some (_, path) =>
    if String.mk (resolvePath path) ∈ fs then
      some (Flowable.image ⟨resolvePath path⟩)
    else
      some (Flowable.para
        ("[Image not found: " ++ String.mk (resolvePath path) ++ "]") "InfoBox")

/-- The colon-heading heuristic
`re.match(r'^[A-Z][^.!?]*:$', stripped) and len(stripped) < 60`
(`pdf_export.py:663`). -/
def isColonHeader (l : List Char) : Bool :=
  (match l with
   | c :: rest =>
     c.isUpper &&
       (match rest.getLast? with
        | some ':' => rest.dropLast.all fun d => d ≠ '.' && d ≠ '!' && d ≠ '?'
        | _ => false)
   | [] => false) &&
    decide (l.length < 60)

/-- `re.match(r'^\d+[\.\)]\s', stripped)` (`pdf_export.py:721`): one or more
digits, `.` or `)`, one whitespace character.  Returns the text after the
matched prefix (`re.sub` replaces that prefix with the bullet glyph). -/
def matchNumbered (l : List Char) : Option (List Char) :=
  let ds := l.takeWhile Char.isDigit
  if ds = [] then none
  else
    match l.drop ds.length with
    | c :: d :: rest =>
      if (c = '.' ∨ c = ')') ∧ isPySpace d then some rest else none
    | _ => none

/-- The key normalization for heading anchors (`pdf_export.py:681-682`):
`re.sub(r'[^a-z0-9_]', '', header_text.lower().replace(' ', '_'))`. -/
def sanitizeKey (l : List Char) : String :=
  ⟨((l.map Char.toLower).map fun c => if c = ' ' then '_' else c).filter
    fun c => c.isLower || c.isDigit || c = '_'⟩

/-- The mutable scan state of the loop at `pdf_export.py:569-749`: the
`story` accumulated so far, the section tracker, the `references` list and
the code-fence mode (`in_code_block`, `code_lines`, `code_language`). -/
structure ScanState where
  story : List Flowable
  tracker : TrackerState
  references : List (List Char)
  inCodeBlock : Bool
  codeLines : List (List Char)
  codeLanguage : List Char
  deriving DecidableEq, Repr

/-- The heading branch (`pdf_export.py:667-688`): advance the section
tracker, build `"{number}. {text}"`, prepend the anchor tag, and append the
styled paragraph.  `add_toc_entry` is not called here (or anywhere). -/
def emitHeader (level : Int) (htext : List Char) (s : ScanState) : ScanState :=
  let r := getNumber s.tracker level
  let fullHeader := r.1 ++ ". " ++ String.mk htext
  let text := "<a name=\"" ++ sanitizeKey htext ++ "\"/>" ++ fullHeader
  let style := if level = 1 then "SectionHeader" else "SubsectionHeader"
  { s with tracker := r.2, story := s.story ++ [Flowable.para text style] }

/-- The shared body of the bullet, nested-bullet, numbered-list and
paragraph branches (`pdf_export.py:691-748`): glyph prefix, per-line
Unicode conversion, URL wrapping/collection, styled paragraph. -/
def bulletPara (style : String) (glyph body : List Char) (s : ScanState) :
    ScanState :=
  let text1 := applyScriptMaps (glyph ++ body)
  let pl := processLinks text1 s.references
  { s with references := pl.2,
           story := s.story ++ [Flowable.para ⟨pl.1⟩ style] }

/-- Append flowables to the story (`story.append`/`story.extend`). -/
def addStory (x : List Flowable) (s : ScanState) : ScanState :=
  { s with story := s.story ++ x }

/-- Opening a code fence (`pdf_export.py:581-585`): the language tag is the
stripped text after the three backticks, defaulting to `text`. -/
def startCode (stripped : List Char) (s : ScanState) : ScanState :=
  { s with inCodeBlock := true,
           codeLanguage :=
             if stripChars (stripped.drop 3) = [] then "text".data
             else stripChars (stripped.drop 3),
           codeLines := [] }

/-- The flowables emitted when a code fence closes
(`pdf_export.py:586-606`): optional `[language]` label, the preformatted
code text, a spacer. -/
def codeFlowables (s : ScanState) : List Flowable :=
  (if s.codeLanguage ≠ [] ∧ s.codeLanguage ≠ "text".data then
    [Flowable.para ("[" ++ String.mk s.codeLanguage ++ "]") "CodeLanguage"]
  else []) ++ [Flowable.pre ⟨joinNL s.codeLines⟩, Flowable.spacer 10]

/-- Closing a code fence (`pdf_export.py:586-606`). -/
def endCode (s : ScanState) : ScanState :=
  { s with inCodeBlock := false, story := s.story ++ codeFlowables s }

/-- A line while inside a code block (`pdf_export.py:611-614`):
`code_lines.append(line.rstrip())`. -/
def addCodeLine (line : List Char) (s : ScanState) : ScanState :=
  { s with codeLines := s.codeLines ++ [rstripChars line] }

/-- The heading-detection cascade (`pdf_export.py:650-665`): `###`/`##`/`#`
prefixes, then the colon heuristic; level `0` means "not a heading". -/
def headerOf (stripped : List Char) : Int × List Char :=
  if "### ".data.isPrefixOf stripped then (3, stripped.drop 4)
  else if "## ".data.isPrefixOf stripped then (2, stripped.drop 3)
  else if "# ".data.isPrefixOf stripped then (1, stripped.drop 2)
  else if isColonHeader stripped then (1, rstripColonChars stripped)
  else (0, stripped)

/-- One iteration of the `while i < len(lines)` loop
(`pdf_export.py:575-749`), with the continuation `k` standing for the
recursive processing of the unconsumed lines.  The branch order is the
source order: code fence, code-block content, table, image, page break,
blank line, heading (with colon heuristic), bullet, indented bullet,
numbered list, paragraph. -/
def scanStep (fs : List String) (line : List Char) (rest : List (List Char))
    (s : ScanState) : List (List Char) × ScanState :=
  let stripped := stripChars line
  if "```".data.isPrefixOf stripped then
    if s.inCodeBlock = false then (rest, startCode stripped s)
    else (rest, endCode s)
  else if s.inCodeBlock then
    (rest, addCodeLine line s)
  else if ['|'].isPrefixOf stripped ∧ rest ≠ [] ∧
      (parseTableRows (line :: rest)).1 ≠ [] then
    ((parseTableRows (line :: rest)).2,
     addStory [Flowable.spacer 10, Flowable.table (parseTableRows (line :: rest)).1,
       Flowable.spacer 20] s)
  else if "![".data.isPrefixOf stripped then
    match detectAndCreateImage fs stripped with
    | some f => (rest, addStory [Flowable.spacer 10, f, Flowable.spacer 20] s)
    | none => (rest, s)
  else if stripped = "---".data ∨ stripped = "\\pagebreak".data ∨
      stripped = "<pagebreak>".data then
    (rest, addStory [Flowable.pageBreak] s)
  else if stripped = [] then
    (rest, addStory [Flowable.spacer 15] s)
  else if 0 < (headerOf stripped).1 then
    (rest, emitHeader (headerOf stripped).1 (headerOf stripped).2 s)
  else if "- ".data.isPrefixOf stripped ∨ "* ".data.isPrefixOf stripped ∨
      "• ".data.isPrefixOf stripped then
    (rest, bulletPara "BulletPoint" "• ".data (stripped.drop 2) s)
  else if "  - ".data.isPrefixOf stripped ∨ "  * ".data.isPrefixOf stripped ∨
      "  • ".data.isPrefixOf stripped then
    (rest, bulletPara "NestedBullet" "◦ ".data (stripped.drop 4) s)
  else
    match matchNumbered stripped with
    | some remainder => (rest, bulletPara "BulletPoint" "• ".data remainder s)
    | none => (rest, bulletPara "CustomBody" [] stripped s)

/-- Fuel-bounded form of the scan loop; `fuel = lines.length` always
suffices because every iteration consumes at least one line. -/
def scanLinesF (fs : List String) : Nat → List (List Char) → ScanState → ScanState
  | _, [], s => s
  | 0, _ :: _, s => s
  | fuel + 1, line :: rest, s =>
    scanLinesF fs fuel (scanStep fs line rest s).1 (scanStep fs line rest s).2

/-- The scan loop of `save_to_pdf` over the line list
(`pdf_export.py:569-749`). -/
def scanLines (fs : List String) (lines : List (List Char)) (s : ScanState) :
    ScanState :=
  scanLinesF fs lines.length lines s

/-- The initial scan state (`pdf_export.py:512-517`, `570-573`):
`code_language = None` is modelled by the empty char list, which is falsy
exactly where the source tests truthiness. -/
def initState : ScanState :=
  { story := [], tracker := ⟨0, 0, 0, []⟩, references := [],
    inCodeBlock := false, codeLines := [], codeLanguage := [] }

/-- `generate_filename` (`pdf_export.py:449-467`). -/
def generateFilename (data : String) : String :=
  let lines := ((splitOnChar '\n' data.data).map stripChars).filter
    fun l => l ≠ []
  match lines with
  | [] => "research_output.pdf"
  | first :: _ =>
    let f1 := stripChars (replaceSub "Topic:".data [] first)
    let f2 := stripChars (replaceSub "Research:".data [] f1)
    let f3 := stripChars (replaceSub "Summary:".data [] f2)
    let words := (splitWs f3).take 5
    let fname := ((joinWith '_' words).map Char.toLower).filter
      fun c => c.isLower || c.isDigit || c = '_'
    let fname := fname.take 50
    if fname = [] then "research_output.pdf"
    else String.mk fname ++ "_research.pdf"

/-- `_create_cover_page` (`pdf_export.py:228-285`); `now` is the formatted
`datetime.now()` date string. -/
def coverPage (title now : String) : List Flowable :=
  [Flowable.spacer 200, Flowable.para title "CoverTitle", Flowable.spacer 100,
   Flowable.para "Prepared by" "PreparedBy",
   Flowable.para "Research Agent" "AgentName",
   Flowable.para now "CoverDate", Flowable.pageBreak]

/-- The table-of-contents block appended before the body
(`pdf_export.py:563-566`). -/
def tocBlock : List Flowable :=
  [Flowable.para "Table of Contents" "TOCTitle", Flowable.spacer 20,
   Flowable.toc, Flowable.pageBreak]

/-- The trailing references section (`pdf_export.py:751-770`): nothing when
no URL was collected, otherwise a page break, the header, and one
`[idx] link` paragraph per collected URL, numbered from 1. -/
def refSection (refs : List (List Char)) : List Flowable :=
  if refs = [] then []
  else
    Flowable.pageBreak :: Flowable.para "References" "ReferencesHeader" ::
      Flowable.spacer 20 ::
      refs.enum.map fun p =>
        Flowable.para ("[" ++ toString (p.1 + 1) ++ "] " ++
          String.mk (linkHtml p.2)) "Reference"

/-- `save_to_pdf` (`pdf_export.py:470-776`): filename defaulting, the title
precondition (`ValueError` modelled as `Except.error`), the early whole-body
Unicode conversion, the scan, and the assembly of cover page, TOC, body and
references.  On success it returns the full story and the result message;
physical layout is delegated to reportlab and not modelled. -/
def saveToPdf (fs : List String) (now data title : String)
    (filename : Option String) : Except String (List Flowable × String) :=
  let fname := match filename with
    | none => generateFilename data
    | some f => if f = "" then generateFilename data else f
  if title = "" ∨ stripChars title.data = [] then
    Except.error "Title is required and must be provided by the user"
  else
    let data' := applyScriptMaps data.data
    let finalState := scanLines fs (splitOnChar '\n' data') initState
    let story := coverPage title now ++ tocBlock ++ finalState.story ++
      refSection finalState.references
    Except.ok (story, "Professional research report successfully saved to " ++
      outputDir ++ "/" ++ fname)

/-- Feed a sequence of heading levels to a `SectionNumberTracker`,
collecting the returned section-number strings (the way the scan loop calls
`get_number` once per detected heading). -/
def runLevels (t : TrackerState) : List Int → List String
  | [] => []
  | level :: ls => (getNumber t level).1 :: runLevels (getNumber t level).2 ls

/-! ### Unfolding equations for the fuel-bounded string replace -/

theorem drop_patlen_le (pat : List Char) (hp : pat ≠ []) (c : Char)
    (rest : List Char) : ((c :: rest).drop pat.length).length ≤ rest.length := by
  match pat with
  | p :: ps => simp only [List.length_drop, List.length_cons]; omega

theorem replaceSubF_nil (pat rep : List Char) (fuel : Nat) :
    replaceSubF pat rep fuel [] = [] := by
  cases fuel <;> rfl

theorem replaceSubF_congr (pat rep : List Char) (hp : pat ≠ []) :
    ∀ fuel₁ fuel₂ l, l.length ≤ fuel₁ → l.length ≤ fuel₂ →
      replaceSubF pat rep fuel₁ l = replaceSubF pat rep fuel₂ l := by
  intro fuel₁
  induction fuel₁ with
  | zero =>
    intro fuel₂ l h1 _
    have : l = [] := List.length_eq_zero.mp (Nat.le_zero.mp h1)
    subst this
    simp [replaceSubF_nil]
  | succ f ih =>
    intro fuel₂ l h1 h2
    match l with
    | [] => simp [replaceSubF_nil]
    | c :: rest =>
      match fuel₂ with
      | 0 => simp at h2
      | f₂ + 1 =>
        simp only [replaceSubF]
        have hd := drop_patlen_le pat hp c rest
        simp only [List.length_cons, Nat.succ_le_succ_iff] at h1 h2
        by_cases hpre : pat.isPrefixOf (c :: rest)
        · simp only [if_pos hpre]
          rw [ih f₂ _ (le_trans hd h1) (le_trans hd h2)]
        · simp only [if_neg hpre]
          rw [ih f₂ rest h1 h2]

theorem replaceSub_nil (pat rep : List Char) : replaceSub pat rep [] = [] := by
  unfold replaceSub
  split
  · rfl
  · exact replaceSubF_nil pat rep 0

theorem replaceSub_cons (pat rep : List Char) (hp : pat ≠ []) (c : Char)
    (rest : List Char) :
    replaceSub pat rep (c :: rest) =
      if pat.isPrefixOf (c :: rest) then
        rep ++ replaceSub pat rep ((c :: rest).drop pat.length)
      else c :: replaceSub pat rep rest := by
  conv_lhs => unfold replaceSub
  rw [if_neg hp]
  simp only [List.length_cons, replaceSubF]
  have hd := drop_patlen_le pat hp c rest
  by_cases hpre : pat.isPrefixOf (c :: rest)
  · simp only [if_pos hpre]
    unfold replaceSub
    rw [if_neg hp,
      replaceSubF_congr pat rep hp rest.length _ _ hd (le_refl _)]
  · simp only [if_neg hpre]
    unfold replaceSub
    rw [if_neg hp]

theorem replaceSub_one_cons (k : Char) (rep : List Char) (c : Char)
    (rest : List Char) :
    replaceSub [k] rep (c :: rest) =
      if c = k then rep ++ replaceSub [k] rep rest
      else c :: replaceSub [k] rep rest := by
  rw [replaceSub_cons [k] rep (by simp) c rest]
  by_cases h : c = k
  · subst h
    have hpre : [c].isPrefixOf (c :: rest) = true := by simp [List.isPrefixOf]
    simp [hpre]
  · have hpre : ¬ ([k].isPrefixOf (c :: rest) = true) := by
      simp only [List.isPrefixOf, Bool.and_eq_true, beq_iff_eq]
      exact fun hh => h hh.1.symm
    rw [if_neg hpre, if_neg h]

/-! ### The Unicode normalizer is a fixed point after one application -/

theorem notMem_replaceSub_one_self {k : Char} {rep : List Char}
    (hk : k ∉ rep) : ∀ l, k ∉ replaceSub [k] rep l := by
  intro l
  induction l with
  | nil => simp [replaceSub_nil]
  | cons c rest ih =>
    rw [replaceSub_one_cons]
    by_cases h : c = k
    · simp only [if_pos h]
      simp [List.mem_append, hk, ih]
    · simp only [if_neg h]
      intro hmem
      rcases List.mem_cons.mp hmem with h' | h'
      · exact h h'.symm
      · exact ih h'

theorem notMem_replaceSub_one {x k : Char} {rep : List Char}
    (hx : x ∉ rep) : ∀ l, x ∉ l → x ∉ replaceSub [k] rep l := by
  intro l
  induction l with
  | nil => simp [replaceSub_nil]
  | cons c rest ih =>
    intro hxl
    rw [replaceSub_one_cons]
    have hxc : x ≠ c := fun h => hxl (h ▸ List.mem_cons_self c rest)
    have hxr : x ∉ rest := fun h => hxl (List.mem_cons_of_mem c h)
    by_cases h : c = k
    · simp only [if_pos h]
      simp [List.mem_append, hx, ih hxr]
    · simp only [if_neg h]
      intro hmem
      rcases List.mem_cons.mp hmem with h' | h'
      · exact hxc h'
      · exact ih hxr h'

theorem replaceSub_one_id {k : Char} {rep : List Char} :
    ∀ l, k ∉ l → replaceSub [k] rep l = l := by
  intro l
  induction l with
  | nil => exact fun _ => replaceSub_nil [k] rep
  | cons c rest ih =>
    intro hk
    rw [replaceSub_one_cons]
    have hck : ¬ c = k := fun h => hk (h ▸ List.mem_cons_self c rest)
    rw [if_neg hck, ih (fun h => hk (List.mem_cons_of_mem c h))]

theorem notMem_scriptFold {x : Char} :
    ∀ (ms : List (Char × List Char)) (acc : List Char), x ∉ acc →
      (∀ q ∈ ms, x ∉ q.2) →
      x ∉ ms.foldl (fun a q => replaceSub [q.1] q.2 a) acc := by
  intro ms
  induction ms with
  | nil => intro acc hacc _; simpa using hacc
  | cons m rest ih =>
    intro acc hacc hreps
    simp only [List.foldl_cons]
    exact ih _ (notMem_replaceSub_one (hreps m (List.mem_cons_self m rest)) acc hacc)
      (fun q hq => hreps q (List.mem_cons_of_mem m hq))

theorem key_notMem_scriptFold :
    ∀ (ms : List (Char × List Char)) (acc : List Char),
      (∀ p ∈ ms, ∀ q ∈ ms, p.1 ∉ q.2) →
      ∀ p ∈ ms, p.1 ∉ ms.foldl (fun a q => replaceSub [q.1] q.2 a) acc := by
  intro ms
  induction ms with
  | nil => intro acc _ p hp; simp at hp
  | cons m rest ih =>
    intro acc hkr p hp
    simp only [List.foldl_cons]
    rcases List.mem_cons.mp hp with h | h
    · have h2 : p.1 ∉ replaceSub [m.1] m.2 acc := by
        rw [h]
        exact notMem_replaceSub_one_self
          (hkr m (List.mem_cons_self m rest) m (List.mem_cons_self m rest)) acc
      exact notMem_scriptFold rest _ h2
        (fun q hq => hkr p hp q (List.mem_cons_of_mem m hq))
    · have step : ∀ q ∈ rest, ∀ r ∈ rest, q.1 ∉ r.2 := fun q hq r hr =>
        hkr q (List.mem_cons_of_mem m hq) r (List.mem_cons_of_mem m hr)
      exact ih _ step p h

theorem scriptFold_fixed :
    ∀ (ms : List (Char × List Char)) (acc : List Char),
      (∀ p ∈ ms, p.1 ∉ acc) →
      ms.foldl (fun a q => replaceSub [q.1] q.2 a) acc = acc := by
  intro ms
  induction ms with
  | nil => intro acc _; rfl
  | cons m rest ih =>
    intro acc h
    simp only [List.foldl_cons]
    rw [replaceSub_one_id acc (h m (List.mem_cons_self m rest)),
      ih acc (fun p hp => h p (List.mem_cons_of_mem m hp))]

theorem scriptMappings_keys_fresh :
    ∀ p ∈ scriptMappings, ∀ q ∈ scriptMappings, p.1 ∉ q.2 := by decide

/-- C4: `_convert_unicode_scripts` is idempotent: applying it twice equals
applying it once, i.e. its output is a fixed point.  Every mapped
subscript/superscript code point is absent from every replacement string
(which are ASCII XML tags), so after one pass no mapped code point remains
and a second pass replaces nothing. -/
theorem convertUnicodeScripts_idempotent (s : String) :
    convertUnicodeScripts (convertUnicodeScripts s) = convertUnicodeScripts s := by
  unfold convertUnicodeScripts
  have : applyScriptMaps (applyScriptMaps s.data) = applyScriptMaps s.data := by
    unfold applyScriptMaps
    exact scriptFold_fixed scriptMappings _
      (key_notMem_scriptFold scriptMappings s.data scriptMappings_keys_fresh)
  simp [this]

/-! ### Unfolding equations for the fuel-bounded scan loop -/

theorem parseTableRows_rest_le :
    ∀ ls : List (List Char), (parseTableRows ls).2.length ≤ ls.length := by
  intro ls
  induction ls with
  | nil => simp [parseTableRows]
  | cons l rest ih =>
    simp only [parseTableRows]
    split
    · split
      · exact le_trans ih (Nat.le_succ _)
      · simpa using le_trans ih (Nat.le_succ _)
    · simp

theorem parseTableRows_cons_le (l : List Char) (rest : List (List Char))
    (h : ['|'].isPrefixOf (stripChars l) = true) :
    (parseTableRows (l :: rest)).2.length ≤ rest.length := by
  simp only [parseTableRows, h, if_true]
  split
  · exact parseTableRows_rest_le rest
  · exact parseTableRows_rest_le rest

theorem scanStep_next_le (fs : List String) (line : List Char)
    (rest : List (List Char)) (s : ScanState) :
    (scanStep fs line rest s).1.length ≤ rest.length := by
  simp only [scanStep]
  repeat' split
  all_goals
    first
    | exact le_rfl
    | (rename_i ht
       exact parseTableRows_cons_le _ _ ht.1)

theorem scanLinesF_nil (fs : List String) (fuel : Nat) (s : ScanState) :
    scanLinesF fs fuel [] s = s := by
  cases fuel <;> rfl

theorem scanLinesF_congr (fs : List String) :
    ∀ fuel₁ fuel₂ lines s, lines.length ≤ fuel₁ → lines.length ≤ fuel₂ →
      scanLinesF fs fuel₁ lines s = scanLinesF fs fuel₂ lines s := by
  intro fuel₁
  induction fuel₁ with
  | zero =>
    intro fuel₂ lines s h1 _
    have : lines = [] := List.length_eq_zero.mp (Nat.le_zero.mp h1)
    subst this
    simp [scanLinesF_nil]
  | succ f ih =>
    intro fuel₂ lines s h1 h2
    match lines with
    | [] => simp [scanLinesF_nil]
    | line :: rest =>
      match fuel₂ with
      | 0 => simp at h2
      | f₂ + 1 =>
        simp only [scanLinesF]
        simp only [List.length_cons, Nat.succ_le_succ_iff] at h1 h2
        have hn := scanStep_next_le fs line rest s
        exact ih f₂ _ _ (le_trans hn h1) (le_trans hn h2)

theorem scanLines_nil (fs : List String) (s : ScanState) :
    scanLines fs [] s = s := rfl

theorem scanLines_cons (fs : List String) (line : List Char)
    (rest : List (List Char)) (s : ScanState) :
    scanLines fs (line :: rest) s =
      scanLines fs (scanStep fs line rest s).1 (scanStep fs line rest s).2 := by
  show scanLinesF fs (rest.length + 1) (line :: rest) s = _
  simp only [scanLinesF]
  exact scanLinesF_congr fs rest.length _ _ _
    (scanStep_next_le fs line rest s) le_rfl

/-! ### Properties of Python strip -/

theorem dropWhile_head_false {p : Char → Bool} :
    ∀ {l : List Char} {c : Char} {t : List Char},
      l.dropWhile p = c :: t → p c = false := by
  intro l
  induction l with
  | nil => intro c t h; simp [List.dropWhile] at h
  | cons a l' ih =>
    intro c t h
    by_cases ha : p a
    · rw [List.dropWhile_cons_of_pos ha] at h
      exact ih h
    · rw [List.dropWhile_cons_of_neg ha] at h
      cases h
      simpa using ha

theorem dropWhile_idem {p : Char → Bool} (l : List Char) :
    (l.dropWhile p).dropWhile p = l.dropWhile p := by
  cases h : l.dropWhile p with
  | nil => rfl
  | cons c t =>
    exact List.dropWhile_cons_of_neg (by simp [dropWhile_head_false h])

theorem rstripChars_idem (l : List Char) :
    rstripChars (rstripChars l) = rstripChars l := by
  unfold rstripChars
  rw [List.reverse_reverse, dropWhile_idem]

theorem lstripChars_rstripChars_of_fixed {m : List Char}
    (hm : lstripChars m = m) : lstripChars (rstripChars m) = rstripChars m := by
  cases h : rstripChars m with
  | nil => rfl
  | cons c t =>
    have hpre : rstripChars m <+: m := by
      unfold rstripChars
      have hsuf : m.reverse.dropWhile isPySpace <:+ m.reverse :=
        List.dropWhile_suffix isPySpace
      have := List.reverse_prefix.mpr hsuf
      simpa using this
    rcases hpre with ⟨u, hu⟩
    have hm2 : m = c :: (t ++ u) := by rw [← hu, h]; simp
    have hm' : m.dropWhile isPySpace = m := hm
    have hc : isPySpace c = false :=
      dropWhile_head_false (hm'.trans hm2)
    show (c :: t).dropWhile isPySpace = c :: t
    exact List.dropWhile_cons_of_neg (by simp [hc])

theorem stripChars_idem (l : List Char) :
    stripChars (stripChars l) = stripChars l := by
  unfold stripChars
  rw [lstripChars_rstripChars_of_fixed (m := lstripChars l)
    (by unfold lstripChars; exact dropWhile_idem l), rstripChars_idem]

/-! ### Per-branch facts about the scan step -/

theorem getNumber_tocEntries (t : TrackerState) (level : Int) :
    (getNumber t level).2.tocEntries = t.tocEntries := by
  unfold getNumber
  repeat' split
  all_goals rfl

theorem scanStep_tocEntries (fs : List String) (line : List Char)
    (rest : List (List Char)) (s : ScanState) :
    (scanStep fs line rest s).2.tracker.tocEntries = s.tracker.tocEntries := by
  simp only [scanStep]
  repeat' split
  all_goals
    simp [addStory, startCode, endCode, addCodeLine, emitHeader, bulletPara,
      getNumber_tocEntries]

theorem scanLinesF_tocEntries (fs : List String) :
    ∀ fuel lines s, (scanLinesF fs fuel lines s).tracker.tocEntries =
      s.tracker.tocEntries := by
  intro fuel
  induction fuel with
  | zero => intro lines s; cases lines <;> rfl
  | succ f ih =>
    intro lines s
    cases lines with
    | nil => rfl
    | cons line rest =>
      simp only [scanLinesF]
      rw [ih, scanStep_tocEntries]

/-! ### Code-fence branch lemmas -/

theorem scanStep_codeLine (fs : List String) (line : List Char)
    (rest : List (List Char)) (s : ScanState)
    (h1 : "```".data.isPrefixOf (stripChars line) = false)
    (h2 : s.inCodeBlock = true) :
    scanStep fs line rest s = (rest, addCodeLine line s) := by
  simp only [scanStep]
  rw [if_neg (by simp [h1]), if_pos h2]

theorem scanLines_codeLine (fs : List String) (line : List Char)
    (rest : List (List Char)) (s : ScanState)
    (h1 : "```".data.isPrefixOf (stripChars line) = false)
    (h2 : s.inCodeBlock = true) :
    scanLines fs (line :: rest) s = scanLines fs rest (addCodeLine line s) := by
  rw [scanLines_cons, scanStep_codeLine fs line rest s h1 h2]

theorem scanStep_fence_open (fs : List String) (rest : List (List Char))
    (s : ScanState) (h : s.inCodeBlock = false) :
    scanStep fs "```".data rest s =
      (rest, { s with inCodeBlock := true, codeLanguage := "text".data,
                      codeLines := [] }) := by
  simp only [scanStep]
  rw [if_pos (show ("```".data.isPrefixOf (stripChars "```".data)) = true by decide),
    if_pos h]
  rfl

theorem scanStep_fence_close (fs : List String) (rest : List (List Char))
    (s : ScanState) (h : s.inCodeBlock = true) :
    scanStep fs "```".data rest s = (rest, endCode s) := by
  simp only [scanStep]
  rw [if_pos (show ("```".data.isPrefixOf (stripChars "```".data)) = true by decide),
    if_neg (by simp [h])]

theorem codeAccumulate (fs : List String) :
    ∀ (ls rest' : List (List Char)) (s : ScanState), s.inCodeBlock = true →
      (∀ l ∈ ls, "```".data.isPrefixOf (stripChars l) = false) →
      scanLines fs (ls ++ rest') s =
        scanLines fs rest' { s with codeLines := s.codeLines ++ ls.map rstripChars } := by
  intro ls
  induction ls with
  | nil =>
    intro rest' s _ _
    simp
  | cons l ls' ih =>
    intro rest' s h hall
    rw [List.cons_append,
      scanLines_codeLine fs l (ls' ++ rest') s (hall l (List.mem_cons_self l ls')) h,
      ih rest' (addCodeLine l s) h (fun x hx => hall x (List.mem_cons_of_mem l hx))]
    simp [addCodeLine]

theorem scanLines_fence_open (fs : List String) (rest : List (List Char))
    (s : ScanState) (h : s.inCodeBlock = false) :
    scanLines fs ("```".data :: rest) s =
      scanLines fs rest
        ({ s with inCodeBlock := true, codeLanguage := "text".data, codeLines := [] }) := by
  rw [scanLines_cons, scanStep_fence_open fs rest s h]

theorem scanLines_fence_close (fs : List String) (rest : List (List Char))
    (s : ScanState) (h : s.inCodeBlock = true) :
    scanLines fs ("```".data :: rest) s = scanLines fs rest (endCode s) := by
  rw [scanLines_cons, scanStep_fence_close fs rest s h]

theorem saveToPdf_completes (fs : List String) (now data title : String)
    (filename : Option String)
    (h : ¬ (title = "" ∨ stripChars title.data = [])) :
    ∃ r, saveToPdf fs now data title filename = Except.ok r := by
  simp only [saveToPdf]
  rw [if_neg h]
  exact ⟨_, rfl⟩

/-- C2 (amended, claim corrected): while scanning, the text emitted for a
fenced code block is the code lines of the (already Unicode-normalized)
body with trailing whitespace stripped and joined by newlines — not the
byte-for-byte original lines.  This theorem gives the exact emitted
`Preformatted` text for any fenced block. -/
theorem codeBlock_content (fs : List String) (ls : List (List Char))
    (s : ScanState) (h : s.inCodeBlock = false)
    (hall : ∀ l ∈ ls, "```".data.isPrefixOf (stripChars l) = false) :
    scanLines fs ("```".data :: (ls ++ ["```".data])) s =
      { s with inCodeBlock := false, codeLanguage := "text".data,
               codeLines := ls.map rstripChars,
               story := s.story ++ [Flowable.pre ⟨joinNL (ls.map rstripChars)⟩,
                 Flowable.spacer 10] } := by
  rw [scanLines_fence_open fs _ s h]
  rw [codeAccumulate fs ls ["```".data] _ rfl hall]
  rw [scanLines_fence_close fs [] _ rfl]
  rw [scanLines_nil]
  simp [endCode, codeFlowables]

/-- C2 counterexample: the body consisting of a fenced block around the
single line `H₂O` has its code content emitted as `H<sub>2</sub>O` (the
whole-body Unicode conversion at `pdf_export.py:490` runs before fence
detection), which differs from the original line. -/
theorem codeBlock_content_counterexample :
    (scanLines [] (splitOnChar '\n' (applyScriptMaps "```\nH₂O\n```".data))
      initState).story = [Flowable.pre "H<sub>2</sub>O", Flowable.spacer 10] ∧
    ("H<sub>2</sub>O" : String) ≠ "H₂O" := by
  constructor
  · rfl
  · decide

theorem codeBlock_content_witness :
    (initState.inCodeBlock = false ∧
      (∀ l ∈ ([" x₂ code ".data] : List (List Char)),
        "```".data.isPrefixOf (stripChars l) = false)) ∧
    scanLines [] ("```".data :: ([" x₂ code ".data] ++ ["```".data])) initState =
      { initState with inCodeBlock := false, codeLanguage := "text".data,
                       codeLines := [" x₂ code ".data].map rstripChars,
                       story := initState.story ++
                         [Flowable.pre ⟨joinNL ([" x₂ code ".data].map rstripChars)⟩,
                          Flowable.spacer 10] } :=
  ⟨⟨rfl, by decide⟩, codeBlock_content [] [" x₂ code ".data] initState rfl (by decide)⟩

/-- C6 (amended, claim corrected): while the scanner is in code-block mode
and the line is not a closing fence, the line is appended to the code
buffer with its trailing whitespace stripped (not verbatim:
`code_lines.append(line.rstrip())`), and no other rule fires — the story,
the references and the section tracker are untouched, so no Heading,
Table, BulletItem, hyperlink or Paragraph block is produced. -/
theorem codeMode_no_other_rule (fs : List String) (line : List Char)
    (rest : List (List Char)) (s : ScanState)
    (h2 : s.inCodeBlock = true)
    (h1 : "```".data.isPrefixOf (stripChars line) = false) :
    scanLines fs (line :: rest) s =
      scanLines fs rest { s with codeLines := s.codeLines ++ [rstripChars line] } ∧
    (scanStep fs line rest s).2.story = s.story ∧
    (scanStep fs line rest s).2.references = s.references ∧
    (scanStep fs line rest s).2.tracker = s.tracker := by
  rw [scanLines_cons, scanStep_codeLine fs line rest s h1 h2]
  exact ⟨rfl, rfl, rfl, rfl⟩

/-- C6 counterexample: inside a fenced block the line `"x "` is buffered as
`"x"` — the trailing space is removed, so the buffered text is not the
verbatim line; the emitted code text for the block is `"x"`. -/
theorem codeMode_counterexample :
    (scanLines [] (splitOnChar '\n' "```\nx \n```".data) initState).story =
      [Flowable.pre "x", Flowable.spacer 10] ∧
    ("x" : String) ≠ "x " := by
  constructor
  · rfl
  · decide

theorem codeMode_witness :
    ((⟨[], ⟨0, 0, 0, []⟩, [], true, [], []⟩ : ScanState).inCodeBlock = true ∧
      "```".data.isPrefixOf (stripChars "- bullet ".data) = false) ∧
    (scanLines [] ["- bullet ".data] (⟨[], ⟨0, 0, 0, []⟩, [], true, [], []⟩ : ScanState) =
      scanLines [] []
        ({ (⟨[], ⟨0, 0, 0, []⟩, [], true, [], []⟩ : ScanState) with
             codeLines := (⟨[], ⟨0, 0, 0, []⟩, [], true, [], []⟩ : ScanState).codeLines ++
               [rstripChars "- bullet ".data] }) ∧
     (scanStep [] "- bullet ".data []
        (⟨[], ⟨0, 0, 0, []⟩, [], true, [], []⟩ : ScanState)).2.story = [] ∧
     (scanStep [] "- bullet ".data []
        (⟨[], ⟨0, 0, 0, []⟩, [], true, [], []⟩ : ScanState)).2.references = [] ∧
     (scanStep [] "- bullet ".data []
        (⟨[], ⟨0, 0, 0, []⟩, [], true, [], []⟩ : ScanState)).2.tracker = ⟨0, 0, 0, []⟩) :=
  ⟨⟨rfl, by decide⟩,
   codeMode_no_other_rule [] "- bullet ".data []
     (⟨[], ⟨0, 0, 0, []⟩, [], true, [], []⟩ : ScanState) rfl (by decide)⟩

/-- C10 (confirmed): when the scan ends inside an unclosed code fence, the
lines buffered after the opening fence produce no content block at all —
the story and references are exactly what they were before the fence — and
the export with such a body still completes successfully (the buffered
`code_lines` are dropped because a `Preformatted` block is only emitted on
a closing fence). -/
theorem unclosedFence_drops_lines (fs : List String)
    (tail : List (List Char)) (s : ScanState)
    (h : s.inCodeBlock = false)
    (hall : ∀ l ∈ tail, "```".data.isPrefixOf (stripChars l) = false) :
    (scanLines fs ("```".data :: tail) s).story = s.story ∧
    (scanLines fs ("```".data :: tail) s).references = s.references ∧
    (scanLines fs ("```".data :: tail) s).codeLines = tail.map rstripChars ∧
    (∀ now data title filename, ¬ (title = "" ∨ stripChars title.data = []) →
      ∃ r, saveToPdf fs now data title filename = Except.ok r) := by
  have bufferEq : scanLines fs ("```".data :: tail) s =
      { s with inCodeBlock := true, codeLanguage := "text".data,
               codeLines := tail.map rstripChars } := by
    rw [scanLines_fence_open fs _ s h]
    have htail : tail = tail ++ [] := by simp
    rw [htail, codeAccumulate fs tail [] _ rfl hall, scanLines_nil]
    simp
  rw [bufferEq]
  exact ⟨rfl, rfl, by simp, fun now data title filename hT =>
    saveToPdf_completes fs now data title filename hT⟩

theorem unclosedFence_witness :
    (initState.inCodeBlock = false ∧
      (∀ l ∈ (["lost line".data] : List (List Char)),
        "```".data.isPrefixOf (stripChars l) = false)) ∧
    (scanLines [] ("```".data :: ["lost line".data]) initState).story =
      initState.story ∧
    (scanLines [] ("```".data :: ["lost line".data]) initState).references =
      initState.references ∧
    (scanLines [] ("```".data :: ["lost line".data]) initState).codeLines =
      ["lost line".data].map rstripChars ∧
    (∃ r, saveToPdf [] "June 1, 2026" "```\nlost line" "T" none = Except.ok r) := by
  have h := unclosedFence_drops_lines [] ["lost line".data] initState rfl (by decide)
  exact ⟨⟨rfl, by decide⟩, h.1, h.2.1, h.2.2.1,
    h.2.2.2 "June 1, 2026" "```\nlost line" "T" none (by decide)⟩

/-- C1 (confirmed): `SectionNumberTracker.get_number` increments the counter
of the requested level and zeroes all deeper counters (so numbers at a
fixed level are strictly increasing in document order); the level sequence
`[1,2,2,1,2]` yields exactly `["1","1.1","1.2","2","2.1"]`; any level
outside `[1,3]` is a no-op returning the empty string and leaving the
counters unchanged. -/
theorem getNumber_spec :
    (∀ t : TrackerState, getNumber t 1 =
      (toString (t.c1 + 1), ⟨t.c1 + 1, 0, 0, t.tocEntries⟩)) ∧
    (∀ t : TrackerState, getNumber t 2 =
      (toString t.c1 ++ "." ++ toString (t.c2 + 1), ⟨t.c1, t.c2 + 1, 0, t.tocEntries⟩)) ∧
    (∀ t : TrackerState, getNumber t 3 =
      (toString t.c1 ++ "." ++ toString t.c2 ++ "." ++ toString (t.c3 + 1),
       ⟨t.c1, t.c2, t.c3 + 1, t.tocEntries⟩)) ∧
    runLevels ⟨0, 0, 0, []⟩ [1, 2, 2, 1, 2] = ["1", "1.1", "1.2", "2", "2.1"] ∧
    (∀ (t : TrackerState) (level : Int), level < 1 ∨ level > 3 →
      getNumber t level = ("", t)) := by
  refine ⟨fun t => rfl, fun t => rfl, fun t => rfl, rfl, ?_⟩
  intro t level h
  unfold getNumber
  rw [if_pos h]

theorem getNumber_spec_witness :
    (((5 : Int) < 1 ∨ (5 : Int) > 3) ∧ getNumber ⟨7, 2, 1, []⟩ 5 = ("", ⟨7, 2, 1, []⟩)) ∧
    (((0 : Int) < 1 ∨ (0 : Int) > 3) ∧ getNumber ⟨7, 2, 1, []⟩ 0 = ("", ⟨7, 2, 1, []⟩)) :=
  ⟨⟨by decide, getNumber_spec.2.2.2.2 ⟨7, 2, 1, []⟩ 5 (by decide)⟩,
   ⟨by decide, getNumber_spec.2.2.2.2 ⟨7, 2, 1, []⟩ 0 (by decide)⟩⟩

/-- C3 (code bug): the scan loop never appends table-of-contents entries —
`SectionNumberTracker.add_toc_entry` has no call site, so after any scan
`toc_entries` is exactly what it started as; in particular processing the
heading `# Intro` emits the numbered heading paragraph but adds no TOC
entry, contradicting the documented intent of `add_toc_entry` and the
`TableOfContents` flowable placed in the story. -/
theorem tocEntries_never_appended :
    (∀ fs lines s, (scanLines fs lines s).tracker.tocEntries =
      s.tracker.tocEntries) ∧
    (scanLines [] ["# Intro".data] initState).story =
      [Flowable.para "<a name=\"intro\"/>1. Intro" "SectionHeader"] ∧
    (scanLines [] ["# Intro".data] initState).tracker.tocEntries = [] :=
  ⟨fun fs lines s => scanLinesF_tocEntries fs lines.length lines s, rfl, rfl⟩

/-- C7 (code bug): a bullet marker indented by exactly two spaces is
handled by the depth-0 branch with the `•` glyph and the `BulletPoint`
style, identically to a column-0 marker, because the scanner strips
leading whitespace before testing for `'  - '`; the `NestedBullet`/`◦`
branch can never fire on a stripped line. -/
theorem indentedBullet_depth0 :
    stripChars "  - item".data = "- item".data ∧
    (scanLines [] ["  - item".data] initState).story =
      [Flowable.para "• item" "BulletPoint"] ∧
    (scanLines [] ["- item".data] initState).story =
      [Flowable.para "• item" "BulletPoint"] ∧
    (scanLines [] ["  * item".data] initState).story =
      [Flowable.para "• item" "BulletPoint"] :=
  ⟨rfl, rfl, rfl, rfl⟩

/-- C8 (confirmed): an empty or whitespace-only title makes `save_to_pdf`
raise `ValueError` before any document is assembled — the model returns the
error value and produces no story, so no artifact is written for the
call. -/
theorem missingTitle_rejected (fs : List String) (now data title : String)
    (filename : Option String)
    (h : title = "" ∨ stripChars title.data = []) :
    saveToPdf fs now data title filename =
      Except.error "Title is required and must be provided by the user" := by
  simp only [saveToPdf]
  rw [if_pos h]

theorem missingTitle_witness :
    ((("   " : String) = "" ∨ stripChars ("   " : String).data = []) ∧
      saveToPdf [] "June 1, 2026" "body" "   " none =
        Except.error "Title is required and must be provided by the user") ∧
    ((("" : String) = "" ∨ stripChars ("" : String).data = []) ∧
      saveToPdf [] "June 1, 2026" "body" "" (some "out.pdf") =
        Except.error "Title is required and must be provided by the user") :=
  ⟨⟨by decide, missingTitle_rejected [] "June 1, 2026" "body" "   " none (by decide)⟩,
   ⟨by decide, missingTitle_rejected [] "June 1, 2026" "body" "" (some "out.pdf")
      (by decide)⟩⟩

/-- C9 (confirmed): an image line whose path does not resolve to an
existing file makes the scanner emit the `[Image not found: <resolved
path>]` info-box paragraph (which contains the unresolved path) instead
of an image, no exception is modelled anywhere on this path, and an export
whose title is valid completes with a written artifact. -/
theorem imageError_annotation (fs : List String) (line t0 alt path : List Char)
    (rest : List (List Char)) (s : ScanState)
    (hs : s.inCodeBlock = false)
    (hshape : stripChars line = '!' :: '[' :: t0)
    (himg : parseImageTag (stripChars line) = some (alt, path))
    (hmiss : String.mk (resolvePath path) ∉ fs) :
    scanLines fs (line :: rest) s =
      scanLines fs rest (addStory [Flowable.spacer 10,
        Flowable.para ("[Image not found: " ++ String.mk (resolvePath path) ++ "]")
          "InfoBox",
        Flowable.spacer 20] s) ∧
    (∀ now data title filename, ¬ (title = "" ∨ stripChars title.data = []) →
      ∃ r, saveToPdf fs now data title filename = Except.ok r) := by
  have hdet : detectAndCreateImage fs (stripChars line) =
      some (Flowable.para
        ("[Image not found: " ++ String.mk (resolvePath path) ++ "]") "InfoBox") := by
    unfold detectAndCreateImage
    rw [stripChars_idem, himg]
    simp only []
    rw [if_neg hmiss]
  have c1 : ¬ ("```".data.isPrefixOf (stripChars line) = true) := by
    rw [hshape]
    simp [List.isPrefixOf]
  have c2 : ¬ (s.inCodeBlock = true) := by simp [hs]
  have c3 : ¬ (['|'].isPrefixOf (stripChars line) = true ∧ rest ≠ [] ∧
      (parseTableRows (line :: rest)).1 ≠ []) := by
    intro hc
    rw [hshape] at hc
    simp [List.isPrefixOf] at hc
  have c4 : "![".data.isPrefixOf (stripChars line) = true := by
    rw [hshape]
    simp [List.isPrefixOf]
  constructor
  · rw [scanLines_cons]
    have hstep : scanStep fs line rest s =
        (rest, addStory [Flowable.spacer 10,
          Flowable.para
            ("[Image not found: " ++ String.mk (resolvePath path) ++ "]") "InfoBox",
          Flowable.spacer 20] s) := by
      simp only [scanStep]
      rw [if_neg c1, if_neg c2, if_neg c3, if_pos c4, hdet]
    rw [hstep]
  · intro now data title filename hT
    exact saveToPdf_completes fs now data title filename hT

theorem imageError_witness :
    ((initState.inCodeBlock = false ∧
      stripChars "![a](missing.png)".data = '!' :: '[' :: "a](missing.png)".data ∧
      parseImageTag (stripChars "![a](missing.png)".data) =
        some ("a".data, "missing.png".data) ∧
      String.mk (resolvePath "missing.png".data) ∉ ([] : List String)) ∧
     scanLines [] ["![a](missing.png)".data] initState =
       scanLines [] [] (addStory [Flowable.spacer 10,
         Flowable.para
           ("[Image not found: " ++ String.mk (resolvePath "missing.png".data) ++ "]")
           "InfoBox",
         Flowable.spacer 20] initState)) ∧
    (∃ r, saveToPdf [] "June 1, 2026" "![a](missing.png)" "T" none = Except.ok r) := by
  have h := imageError_annotation [] "![a](missing.png)".data "a](missing.png)".data
    "a".data "missing.png".data [] initState rfl (by decide) (by decide) (by decide)
  exact ⟨⟨⟨rfl, by decide, by decide, by decide⟩, h.1⟩,
    h.2 "June 1, 2026" "![a](missing.png)" "T" none (by decide)⟩

/-! ### Reference-list and URL-wrapping lemmas -/

theorem urlFold_refs :
    ∀ (urls : List (List Char)) (acc : List Char × List (List Char)),
      acc.2.Nodup →
      ((urls.foldl (fun acc url =>
          (replaceSub url (linkHtml url) acc.1,
           if url ∈ acc.2 then acc.2 else acc.2 ++ [url])) acc).2.Nodup ∧
       acc.2 <+: (urls.foldl (fun acc url =>
          (replaceSub url (linkHtml url) acc.1,
           if url ∈ acc.2 then acc.2 else acc.2 ++ [url])) acc).2) := by
  intro urls
  induction urls with
  | nil => exact fun acc h => ⟨h, List.prefix_rfl⟩
  | cons u us ih =>
    intro acc h
    simp only [List.foldl_cons]
    by_cases hm : u ∈ acc.2
    · have h2 : (if u ∈ acc.2 then acc.2 else acc.2 ++ [u]) = acc.2 := if_pos hm
      rw [h2]
      exact ih _ h
    · have h2 : (if u ∈ acc.2 then acc.2 else acc.2 ++ [u]) = acc.2 ++ [u] := if_neg hm
      rw [h2]
      have hnd : (acc.2 ++ [u]).Nodup := by
        rw [List.nodup_append]
        exact ⟨h, List.nodup_singleton u, by
          intro a ha hb
          rw [List.mem_singleton] at hb
          exact hm (hb ▸ ha)⟩
      obtain ⟨hn, hp⟩ := ih (replaceSub u (linkHtml u) acc.1, acc.2 ++ [u]) hnd
      exact ⟨hn, (List.prefix_append acc.2 [u]).trans hp⟩

theorem processLinks_refs (text : List Char) (refs : List (List Char))
    (h : refs.Nodup) :
    (processLinks text refs).2.Nodup ∧ refs <+: (processLinks text refs).2 := by
  unfold processLinks
  exact urlFold_refs (extractUrls text) (text, refs) h

theorem addStory_references (x : List Flowable) (s : ScanState) :
    (addStory x s).references = s.references := rfl

theorem startCode_references (stripped : List Char) (s : ScanState) :
    (startCode stripped s).references = s.references := rfl

theorem endCode_references (s : ScanState) :
    (endCode s).references = s.references := rfl

theorem addCodeLine_references (line : List Char) (s : ScanState) :
    (addCodeLine line s).references = s.references := rfl

theorem emitHeader_references (level : Int) (htext : List Char) (s : ScanState) :
    (emitHeader level htext s).references = s.references := rfl

theorem bulletPara_references (style : String) (glyph body : List Char)
    (s : ScanState) :
    (bulletPara style glyph body s).references =
      (processLinks (applyScriptMaps (glyph ++ body)) s.references).2 := by
  dsimp only [bulletPara]

theorem scanStep_refs (fs : List String) (line : List Char)
    (rest : List (List Char)) (s : ScanState) (h : s.references.Nodup) :
    (scanStep fs line rest s).2.references.Nodup ∧
      s.references <+: (scanStep fs line rest s).2.references := by
  simp only [scanStep]
  repeat' split
  all_goals try dsimp only
  all_goals
    try simp only [addStory_references, startCode_references, endCode_references,
      addCodeLine_references, emitHeader_references, bulletPara_references]
  all_goals
    first
    | exact processLinks_refs _ _ h
    | exact ⟨h, List.prefix_rfl⟩

theorem scanLinesF_refs (fs : List String) :
    ∀ fuel lines s, (s : ScanState).references.Nodup →
      (scanLinesF fs fuel lines s).references.Nodup ∧
        s.references <+: (scanLinesF fs fuel lines s).references := by
  intro fuel
  induction fuel with
  | zero => intro lines s h; cases lines <;> exact ⟨h, List.prefix_rfl⟩
  | succ f ih =>
    intro lines s h
    cases lines with
    | nil => exact ⟨h, List.prefix_rfl⟩
    | cons line rest =>
      simp only [scanLinesF]
      obtain ⟨h1, p1⟩ := scanStep_refs fs line rest s h
      obtain ⟨h2, p2⟩ := ih _ _ h1
      exact ⟨h2, p1.trans p2⟩

theorem replaceSub_no_occurrence (pat rep : List Char) (hp : pat ≠ []) :
    ∀ l, (∀ i, i ≤ l.length → ¬ pat.isPrefixOf (l.drop i) = true) →
      replaceSub pat rep l = l := by
  intro l
  induction l with
  | nil => exact fun _ => replaceSub_nil pat rep
  | cons c rest ih =>
    intro hocc
    rw [replaceSub_cons pat rep hp c rest]
    rw [if_neg (by simpa using hocc 0 (Nat.zero_le _))]
    rw [ih (fun i hi => by
      simpa using hocc (i + 1) (by simpa using Nat.succ_le_succ hi))]

theorem replaceSub_single_occurrence (pat rep : List Char) (hp : pat ≠ []) :
    ∀ pre post,
      (∀ i, i < pre.length → ¬ pat.isPrefixOf ((pre ++ pat ++ post).drop i) = true) →
      (∀ i, i ≤ post.length → ¬ pat.isPrefixOf (post.drop i) = true) →
      replaceSub pat rep (pre ++ pat ++ post) = pre ++ rep ++ post := by
  intro pre
  induction pre with
  | nil =>
    intro post _ hpost
    simp only [List.nil_append]
    match pat, hp with
    | p :: ps, _ =>
      rw [show (p :: ps) ++ post = p :: (ps ++ post) from rfl,
        replaceSub_cons (p :: ps) rep (by simp) p (ps ++ post)]
      rw [if_pos (by
        simp only [← List.cons_append]
        exact List.isPrefixOf_iff_prefix.mpr (List.prefix_append (p :: ps) post))]
      rw [show ((p :: (ps ++ post)).drop (p :: ps).length) = post by
        simp only [← List.cons_append]
        exact List.drop_left (p :: ps) post]
      rw [replaceSub_no_occurrence (p :: ps) rep (by simp) post hpost]
  | cons c pre' ih =>
    intro post hpre hpost
    have hc : ¬ pat.isPrefixOf (c :: (pre' ++ pat ++ post)) = true := by
      have := hpre 0 (by simp)
      simpa using this
    rw [show ((c :: pre') ++ pat ++ post) = c :: (pre' ++ pat ++ post) by simp,
      replaceSub_cons pat rep hp c (pre' ++ pat ++ post), if_neg hc,
      ih post (fun i hi => by
        have := hpre (i + 1) (by simpa using Nat.succ_lt_succ hi)
        simpa using this) hpost]
    simp

theorem processLinks_single (text pre u post : List Char)
    (refs : List (List Char))
    (htext : text = pre ++ u ++ post)
    (hu : u ≠ [])
    (hurls : extractUrls text = [u])
    (hpre : ∀ i, i < pre.length → ¬ u.isPrefixOf (text.drop i) = true)
    (hpost : ∀ i, i ≤ post.length → ¬ u.isPrefixOf (post.drop i) = true)
    (hmem : u ∉ refs) :
    processLinks text refs = (pre ++ linkHtml u ++ post, refs ++ [u]) := by
  unfold processLinks
  rw [hurls]
  simp only [List.foldl_cons, List.foldl_nil]
  rw [if_neg hmem]
  subst htext
  rw [replaceSub_single_occurrence u (linkHtml u) hu pre post hpre hpost]

theorem refSection_entry (refs : List (List Char)) (i : Nat) (u : List Char)
    (hi : refs[i]? = some u) :
    (refSection refs)[i + 3]? = some (Flowable.para
      ("[" ++ toString (i + 1) ++ "] " ++ String.mk (linkHtml u)) "Reference") := by
  have hne : refs ≠ [] := by
    intro h
    rw [h] at hi
    simp at hi
  unfold refSection
  rw [if_neg hne]
  rw [show i + 3 = i + 2 + 1 from rfl, List.getElem?_cons_succ,
    show i + 2 = i + 1 + 1 from rfl, List.getElem?_cons_succ,
    List.getElem?_cons_succ, List.getElem?_map, List.getElem?_enum, hi]
  rfl

/-- C5 (amended, claim corrected): (1) a URL is appended to the references
list only when it is not already present, so starting from a
duplicate-free list the references stay duplicate-free after any scan and
previously collected references keep their positions (the old list is a
prefix of the new one: first-occurrence order); (2) when a URL occurs
exactly once in a line's processed text, the in-text wrapping replaces it
with a hyperlink whose target and display text are that URL byte-for-byte,
and appends it to the references; (3) the References section renders entry
`i` (0-based) as `[i+1]` followed by that URL's hyperlink markup, i.e.
entries are numbered 1..N in list order.  (With the same URL occurring
twice in one line, the wrapping is corrupted — see the counterexample.) -/
theorem references_dedup_wrapping :
    (∀ fs lines s, (s : ScanState).references.Nodup →
      (scanLines fs lines s).references.Nodup ∧
        s.references <+: (scanLines fs lines s).references) ∧
    (∀ text pre u post refs, text = pre ++ u ++ post → u ≠ [] →
      extractUrls text = [u] →
      (∀ i, i < pre.length → ¬ u.isPrefixOf (text.drop i) = true) →
      (∀ i, i ≤ post.length → ¬ u.isPrefixOf (post.drop i) = true) →
      u ∉ refs →
      processLinks text refs = (pre ++ linkHtml u ++ post, refs ++ [u])) ∧
    (∀ refs i u, refs[i]? = some u →
      (refSection refs)[i + 3]? = some (Flowable.para
        ("[" ++ toString (i + 1) ++ "] " ++ String.mk (linkHtml u)) "Reference")) :=
  ⟨fun fs lines s h => scanLinesF_refs fs lines.length lines s h,
   fun text pre u post refs h1 h2 h3 h4 h5 h6 =>
     processLinks_single text pre u post refs h1 h2 h3 h4 h5 h6,
   fun refs i u hi => refSection_entry refs i u hi⟩

/-- C5 counterexample: in the line `http://x http://x` the URL occurs
twice; the references list still records it once, but the emitted paragraph
is not the text with each occurrence wrapped as
`<a href="http://x" color="blue"><u>http://x</u></a>` — the second
replacement pass rewrites the URL inside the markup inserted by the first
pass, so the link target is no longer the URL byte-for-byte. -/
theorem references_dedup_wrapping_counterexample :
    (scanLines [] ["http://x http://x".data] initState).references =
      ["http://x".data] ∧
    (scanLines [] ["http://x http://x".data] initState).story ≠
      [Flowable.para
        ("<a href=\"http://x\" color=\"blue\"><u>http://x</u></a> " ++
         "<a href=\"http://x\" color=\"blue\"><u>http://x</u></a>")
        "CustomBody"] := by
  constructor
  · rfl
  · decide

theorem references_dedup_wrapping_witness :
    (([] : List (List Char)).Nodup ∧
      (scanLines [] ["see http://a ok".data] initState).references.Nodup ∧
      ([] : List (List Char)) <+:
        (scanLines [] ["see http://a ok".data] initState).references) ∧
    (("see http://a ok".data = "see ".data ++ "http://a".data ++ " ok".data ∧
      "http://a".data ≠ [] ∧
      extractUrls "see http://a ok".data = ["http://a".data] ∧
      "http://a".data ∉ ([] : List (List Char))) ∧
     processLinks "see http://a ok".data [] =
       ("see ".data ++ linkHtml "http://a".data ++ " ok".data, [] ++ ["http://a".data])) ∧
    (["http://a".data][0]? = some "http://a".data ∧
     (refSection ["http://a".data])[0 + 3]? = some (Flowable.para
       ("[" ++ toString (0 + 1) ++ "] " ++ String.mk (linkHtml "http://a".data))
       "Reference")) := by
  refine ⟨⟨List.nodup_nil, ?_⟩, ⟨⟨by decide, by decide, by decide, by decide⟩, ?_⟩,
    ⟨rfl, ?_⟩⟩
  · exact references_dedup_wrapping.1 [] ["see http://a ok".data] initState
      List.nodup_nil
  · exact references_dedup_wrapping.2.1 "see http://a ok".data "see ".data
      "http://a".data " ok".data [] (by decide) (by decide) (by decide)
      (by decide) (by decide) (by decide)
  · exact references_dedup_wrapping.2.2 ["http://a".data] 0 "http://a".data rfl

end PdfExport
